import Mathlib

/-!
Verification development for the crypto-analytics ingestion utility
(src/src/fetch_data.py and src/src/config.py).

The Python program is shallowly embedded: timestamps become canonical UTC
epoch-millisecond integers (Int), price/volume columns become exact
rationals, a pandas DataFrame becomes a `List` of typed records, the remote
HTTP endpoint becomes the finite sequence of responses it returns (each one
either a page of raw rows or a transport/HTTP-status failure), and a Python
exception becomes the `Except` monad.  File-system state is passed
explicitly: `Option (List Candle)` is "no file" / "file with these rows".
-/

namespace CryptoAnalytics

/-- Candle record: one row of the persisted series, with the seven columns
`open_time, open, high, low, close, volume, close_time` of
`fetch_data.py`.  The two time columns are canonical UTC epoch milliseconds;
the five price/volume columns are exact rationals.  The CSV column named
`open` is the field `open_` here because `open` is a Lean keyword. -/
structure Candle where
  open_time : Int
  open_ : ℚ
  high : ℚ
  low : ℚ
  close : ℚ
  volume : ℚ
  close_time : Int
  deriving DecidableEq

/-- Raw kline row as returned by the exchange endpoint: the fixed 12-field
positional layout consumed by `fetch_klines` (fetch_data.py lines 88-104). -/
structure RawRow where
  open_time : Int
  open_ : ℚ
  high : ℚ
  low : ℚ
  close : ℚ
  volume : ℚ
  close_time : Int
  quote_asset_volume : ℚ
  number_of_trades : Int
  taker_buy_base_asset_volume : ℚ
  taker_buy_quote_asset_volume : ℚ
  ignore : ℚ
  deriving DecidableEq

/-- Transport- or HTTP-status-level failure: what `r.raise_for_status()`
raises on a non-2xx response (fetch_data.py line 65). -/
structure TransportError where
  status : Nat
  deriving DecidableEq

instance {ε α : Type} [DecidableEq ε] [DecidableEq α] : DecidableEq (Except ε α) := fun a b =>
  match a, b with
  | Except.ok x, Except.ok y =>
    if h : x = y then isTrue (by rw [h]) else isFalse (fun hc => h (Except.ok.inj hc))
  | Except.error x, Except.error y =>
    if h : x = y then isTrue (by rw [h]) else isFalse (fun hc => h (Except.error.inj hc))
  | Except.ok _, Except.error _ => isFalse (fun hc => Except.noConfusion hc)
  | Except.error _, Except.ok _ => isFalse (fun hc => Except.noConfusion hc)

/-- Row normalizer: projection of a raw 12-field row onto the seven-column
candle schema (fetch_data.py lines 88-111). -/
def toCandle (r : RawRow) : Candle :=
  ⟨r.open_time, r.open_, r.high, r.low, r.close, r.volume, r.close_time⟩

/-- Row normalizer applied to a whole fetched row list; an empty input
yields the empty, correctly-typed result (fetch_data.py lines 85-86). -/
def normalizeRows (rows : List RawRow) : List Candle :=
  rows.map toCandle

/-- Termination test of fetch_data.py line 76: an end time was given and
the computed next cursor reaches or exceeds it. -/
def stopAtEnd : Option Int → Int → Bool
  | none, _ => false
  | some end_ms, next_open_time => decide (end_ms ≤ next_open_time)

/-- Pagination loop of `fetch_klines` (fetch_data.py lines 54-83).  The
remote source is modelled by the finite list of responses it returns, one
per request, each a page of rows or a `TransportError`; an exhausted
response list behaves like an empty page (the remote has nothing more).
Each iteration mirrors the source order: a failed response propagates
(`raise_for_status`), an empty page stops the loop, otherwise the page is
accumulated, and the loop stops if the next cursor (last row's `open_time`
plus one millisecond) reaches the end bound or fails to advance past the
current cursor; otherwise the cursor advances and the next page is
requested. -/
def fetch_loop (end_ms : Option Int) :
    Int → List (Except TransportError (List RawRow)) →
    Except TransportError (List RawRow)
  | _, [] => Except.ok []
  | _, Except.error e :: _ => Except.error e
  | cur, Except.ok chunk :: rest =>
    match chunk.getLast? with
    | none => Except.ok []
    | some lastRow =>
      let next_open_time := lastRow.open_time + 1
      if stopAtEnd end_ms next_open_time then Except.ok chunk
      else if next_open_time ≤ cur then Except.ok chunk
      else (fetch_loop end_ms next_open_time rest).map (fun tl => chunk ++ tl)

/-- Remote range fetcher `fetch_klines` (fetch_data.py lines 36-111),
with times already canonical: runs the pagination loop from `start_ms`
and normalizes the accumulated raw rows; no rows gives the empty
seven-column result. -/
def fetch_klines (start_ms : Int) (end_ms : Option Int)
    (responses : List (Except TransportError (List RawRow))) :
    Except TransportError (List Candle) :=
  (fetch_loop end_ms start_ms responses).map normalizeRows

/-- Deduplication step `merged.drop_duplicates(subset=["open_time"],
keep="last")` (fetch_data.py line 161): a row is kept exactly when no
later row has the same `open_time`, so on conflict the last occurrence
survives, and kept rows stay in their original order. -/
def drop_duplicates : List Candle → List Candle
  | [] => []
  | c :: cs =>
    if cs.any (fun d => d.open_time == c.open_time) then drop_duplicates cs
    else c :: drop_duplicates cs

/-- Comparison key used by `merged.sort_values("open_time")`
(fetch_data.py line 162). -/
def keyLE (a b : Candle) : Prop :=
  a.open_time ≤ b.open_time

instance : DecidableRel keyLE := fun a b =>
  inferInstanceAs (Decidable (a.open_time ≤ b.open_time))

instance : IsTotal Candle keyLE :=
  ⟨fun a b => le_total a.open_time b.open_time⟩

instance : IsTrans Candle keyLE :=
  ⟨fun _ _ _ h₁ h₂ => le_trans h₁ h₂⟩

/-- Sorting step `merged.sort_values("open_time")` (fetch_data.py line
162), as a sort by the `open_time` key; it always runs on the output of
`drop_duplicates`, whose keys are pairwise distinct, so the choice of
sorting algorithm does not affect the result. -/
def sort_values (l : List Candle) : List Candle :=
  l.insertionSort keyLE

/-- Merge step of `update_klines_csv` (fetch_data.py lines 155-162):
concatenate base and newly fetched rows (just the new rows when the base
is empty), drop duplicate `open_time`s keeping the last occurrence, and
sort ascending by `open_time`. -/
def mergeRecords (base new_df : List Candle) : List Candle :=
  let merged := if base.isEmpty then new_df else base ++ new_df
  sort_values (drop_duplicates merged)

/-- Maximum of the `open_time` column, `existing["open_time"].max()`
(fetch_data.py line 148); only ever used on a non-empty list, the value on
`[]` is an arbitrary default. -/
def maxOpenTime : List Candle → Int
  | [] => 0
  | c :: cs => cs.foldl (fun a x => max a x.open_time) c.open_time

/-- Fetch-window start chosen by `update_klines_csv` (fetch_data.py lines
144-151): the caller's fallback when the file is absent or empty,
otherwise the maximum existing `open_time` (the code passes `last_open`
itself as `fetch_start`, without adding an interval step). -/
def resume_start (existing : Option (List Candle)) (start_time_if_empty : Int) : Int :=
  match existing with
  | none => start_time_if_empty
  | some l => if l.isEmpty then start_time_if_empty else maxOpenTime l

/-- Base record set chosen by `update_klines_csv` (fetch_data.py lines
144-151): empty when the file is absent or empty, otherwise the existing
rows. -/
def base_records (existing : Option (List Candle)) : List Candle :=
  match existing with
  | none => []
  | some l => if l.isEmpty then [] else l

/-- Incremental update `update_klines_csv` (fetch_data.py lines 130-165):
load the existing rows, choose the resume point and base set, run the
remote fetch (whose failure propagates), then merge.  The returned list is
what `merged.to_csv(path)` persists on success. -/
def update_klines_csv (existing : Option (List Candle))
    (start_time_if_empty : Int) (end_time : Option Int)
    (responses : List (Except TransportError (List RawRow))) :
    Except TransportError (List Candle) :=
  (fetch_klines (resume_start existing start_time_if_empty) end_time responses).map
    (fun new_df => mergeRecords (base_records existing) new_df)

/-- File state after one run of `update_klines_csv`: on success the merged
rows are written to the path (fetch_data.py line 164); on a propagated
fetch failure the write is never reached, so the previous file state
remains. -/
def fileAfterRun (existing : Option (List Candle))
    (start_time_if_empty : Int) (end_time : Option Int)
    (responses : List (Except TransportError (List RawRow))) :
    Option (List Candle) :=
  match update_klines_csv existing start_time_if_empty end_time responses with
  | Except.ok merged => some merged
  | Except.error _ => existing

/-- Summary line printed by `update_data` (fetch_data.py line 195). -/
def summary_line (out_path : String) (df : List Candle) : String :=
  "Saved/updated: " ++ out_path ++ " | rows=" ++ toString df.length

/-- Command surface `update_data` (fetch_data.py lines 187-195): runs
`update_klines_csv` with no end bound and, on success, prints the one-line
summary; the pair returned is (persisted rows, printed line). -/
def update_data (existing : Option (List Candle)) (start_if_empty : Int)
    (responses : List (Except TransportError (List RawRow)))
    (out_path : String) :
    Except TransportError (List Candle × String) :=
  (update_klines_csv existing start_if_empty none responses).map
    (fun df => (df, summary_line out_path df))

/-- Truncation toward zero of `q * k`, the behaviour of Python's
`int(x * k)` on an exact value: the numerator is scaled before the single
truncating division by the (positive) denominator, which avoids any
intermediate rational normalization and is exactly `int()` of the product. -/
def truncScaled (q : ℚ) (k : Nat) : Int :=
  let n := q.num * (k : Int)
  if 0 ≤ n then ((n.natAbs / q.den : Nat) : Int)
  else -((n.natAbs / q.den : Nat) : Int)

/-- Count of days from 1970-01-01 to the given civil date (proleptic
Gregorian), the arithmetic underlying `datetime.timestamp()` for a UTC
datetime; standard era-based civil-from-days arithmetic with floor
division. -/
def days_from_civil (y m d : Int) : Int :=
  let yy := if m ≤ 2 then y - 1 else y
  let era := yy.fdiv 400
  let yoe := yy - era * 400
  let mp := if 2 < m then m - 3 else m + 9
  let doy := (153 * mp + 2).fdiv 5 + d - 1
  let doe := yoe * 365 + yoe.fdiv 4 - yoe.fdiv 100 + doy
  era * 146097 + doe - 719468

/-- Digit value of a character, or `none` for a non-digit. -/
def digit? (c : Char) : Option Nat :=
  if c.isDigit then some (c.toNat - 48) else none

/-- Two-digit decimal field. -/
def num2 (a b : Char) : Option Nat := do
  let x ← digit? a
  let y ← digit? b
  pure (10 * x + y)

/-- Four-digit decimal field. -/
def num4 (a b c d : Char) : Option Nat := do
  let x ← num2 a b
  let y ← num2 c d
  pure (100 * x + y)

/-- Parsed civil date-time, the result of `datetime.fromisoformat` on the
string forms this program feeds it. -/
structure CivilTime where
  year : Int
  month : Nat
  day : Nat
  hour : Nat
  minute : Nat
  second : Nat
  deriving DecidableEq

/-- Range validation performed by `datetime.fromisoformat`: out-of-range
fields raise (modelled as `none`). -/
def mkCivil (y mo d h mi se : Nat) : Option CivilTime :=
  if 1 ≤ mo ∧ mo ≤ 12 ∧ 1 ≤ d ∧ d ≤ 31 ∧ h ≤ 23 ∧ mi ≤ 59 ∧ se ≤ 59 then
    some ⟨(y : Int), mo, d, h, mi, se⟩
  else none

/-- Parser for the ISO-8601 forms `to_millis` produces after replacing a
literal T separator with a space: `YYYY-MM-DD` or `YYYY-MM-DD HH:MM:SS`
(the subset of `datetime.fromisoformat` exercised by this program);
anything else is a parse failure. -/
def parse_isoformat (cs : List Char) : Option CivilTime :=
  match cs with
  | [y1, y2, y3, y4, '-', m1, m2, '-', d1, d2] => do
    let y ← num4 y1 y2 y3 y4
    let mo ← num2 m1 m2
    let d ← num2 d1 d2
    mkCivil y mo d 0 0 0
  | [y1, y2, y3, y4, '-', m1, m2, '-', d1, d2, ' ',
     h1, h2, ':', n1, n2, ':', s1, s2] => do
    let y ← num4 y1 y2 y3 y4
    let mo ← num2 m1 m2
    let d ← num2 d1 d2
    let h ← num2 h1 h2
    let mi ← num2 n1 n2
    let se ← num2 s1 s2
    mkCivil y mo d h mi se
  | _ => none

/-- Epoch milliseconds of a civil time interpreted as UTC, the value
`int(parsed.timestamp() * 1000)` for a tz-aware UTC datetime. -/
def civilToMillis (t : CivilTime) : Int :=
  (days_from_civil t.year (t.month : Int) (t.day : Int) * 86400
    + (t.hour : Int) * 3600 + (t.minute : Int) * 60 + (t.second : Int)) * 1000

/-- Input union accepted by `to_millis` (fetch_data.py line 17):
`datetime` values are represented by their UTC epoch-second timestamp,
numbers by an exact rational (covering both int and float), strings as
themselves; the `TypeError` branch for any other shape is unrepresentable
in the tagged union. -/
inductive TimeInput where
  | dt (epoch_seconds : ℚ)
  | num (x : ℚ)
  | str (s : String)
  deriving DecidableEq

/-- Stripping `dt.strip()` of fetch_data.py line 27: Python removes
leading and trailing whitespace. -/
def pyStrip (cs : List Char) : List Char :=
  ((cs.dropWhile Char.isWhitespace).reverse.dropWhile Char.isWhitespace).reverse

/-- Replacement `.replace("T", " ")` of fetch_data.py line 27: every
literal T becomes a space. -/
def pyReplaceT (cs : List Char) : List Char :=
  cs.map (fun c => if c = 'T' then ' ' else c)

/-- Time normalizer `to_millis` (fetch_data.py lines 17-33): a datetime
becomes `int(dt.timestamp() * 1000)`; a number below 10_000_000_000 is
scaled by 1000 as epoch seconds and one at or above it is kept as epoch
milliseconds, truncated to integer either way; a string is stripped, its
T separator replaced by a space, parsed as ISO, treated as UTC and
converted; a malformed string is a parse failure (`none`). -/
def to_millis : TimeInput → Option Int
  | TimeInput.dt ts => some (truncScaled ts 1000)
  | TimeInput.num x =>
    some (if x < 10000000000 then truncScaled x 1000 else truncScaled x 1)
  | TimeInput.str s =>
    (parse_isoformat (pyReplaceT (pyStrip s.toList))).map civilToMillis

/-- Error raised by the interval resolver on an unsupported code. -/
structure UnsupportedInterval where
  code : String
  deriving DecidableEq

/-- Millisecond duration of one interval unit letter: `m` minutes, `h`
hours, `d` days, `w` weeks; every other letter (including the monthly
unit `M`, which has no fixed length) is unsupported. -/
def unit_ms (c : Char) : Option Int :=
  if c = 'm' then some 60000
  else if c = 'h' then some 3600000
  else if c = 'd' then some 86400000
  else if c = 'w' then some 604800000
  else none

/-- Decimal value of a non-empty all-digit character list. -/
def parseDigits (cs : List Char) : Option Nat :=
  match cs with
  | [] => none
  | _ => cs.foldlM (fun acc c => (digit? c).map (fun d => 10 * acc + d)) 0

/-- Modelled from the spec: the repository ships no interval resolver
under src/, so this follows spec section 4.2 — the input is one or more
digits followed by a single unit letter (`m` minutes, `h` hours, `d`
days, `w` weeks), the result is `n * unit_ms` in milliseconds, the
monthly unit `M` and every other code fail with an `UnsupportedInterval`
error instead of approximating. -/
def interval_to_millis (s : String) : Except UnsupportedInterval Int :=
  let cs := s.toList
  match cs.getLast? with
  | none => Except.error ⟨s⟩
  | some u =>
    match parseDigits cs.dropLast, unit_ms u with
    | some n, some ms => Except.ok ((n : Int) * ms)
    | _, _ => Except.error ⟨s⟩

/-- Distinctness of the `open_time` keys of two candles. -/
def keyNe (a b : Candle) : Prop :=
  a.open_time ≠ b.open_time

/-- Strict ascending order on the `open_time` keys of two candles. -/
def keyLt (a b : Candle) : Prop :=
  a.open_time < b.open_time

instance : DecidableRel keyNe := fun a b =>
  inferInstanceAs (Decidable (a.open_time ≠ b.open_time))

instance : DecidableRel keyLt := fun a b =>
  inferInstanceAs (Decidable (a.open_time < b.open_time))

/-- Finite set of `open_time` keys occurring in a record list. -/
def key_finset (l : List Candle) : Finset Int :=
  (l.map Candle.open_time).toFinset

/-- Test that `needle` occurs at the very start of `hay`. -/
def startsWithChars : List Char → List Char → Bool
  | [], _ => true
  | _ :: _, [] => false
  | a :: n, b :: h => a == b && startsWithChars n h

/-- Test that `needle` occurs contiguously anywhere inside `hay`: the
formalization of "the printed line contains this text". -/
def substringOf (needle : List Char) : List Char → Bool
  | [] => startsWithChars needle []
  | b :: t => startsWithChars needle (b :: t) || substringOf needle t

/-- Sample candle used by the concrete witnesses: opens at time `t`. -/
def sampleCandle (t : Int) : Candle :=
  ⟨t, 1, 2, 3, 4, 5, t + 59999⟩

/-- Sample raw exchange row used by the concrete witnesses: opens at time
`t`, and normalizes to `sampleCandle t`. -/
def sampleRaw (t : Int) : RawRow :=
  ⟨t, 1, 2, 3, 4, 5, t + 59999, 6, 7, 8, 9, 0⟩

/-- Second sample candle, distinguishable from `sampleCandle t` at the
same `open_time`: a revised version of the candle. -/
def sampleCandleB (t : Int) : Candle :=
  ⟨t, 9, 9, 9, 9, 9, t + 59999⟩

theorem keyNe_symm : Symmetric keyNe :=
  fun _ _ h => Ne.symm h

theorem mem_of_mem_drop_duplicates {a : Candle} {l : List Candle}
    (h : a ∈ drop_duplicates l) : a ∈ l := by
  induction l with
  | nil => simp [drop_duplicates] at h
  | cons c cs ih =>
    rw [drop_duplicates] at h
    split at h
    · exact List.mem_cons_of_mem c (ih h)
    · rcases List.mem_cons.mp h with rfl | h
      · exact List.mem_cons_self a cs
      · exact List.mem_cons_of_mem c (ih h)

theorem key_mem_drop_duplicates {k : Int} {l : List Candle}
    (h : ∃ a ∈ l, a.open_time = k) :
    ∃ b ∈ drop_duplicates l, b.open_time = k := by
  induction l with
  | nil => simp at h
  | cons c cs ih =>
    rw [drop_duplicates]
    rcases h with ⟨a, ha, hk⟩
    rcases List.mem_cons.mp ha with rfl | ha
    · split
      · next hany =>
        rcases List.any_eq_true.mp hany with ⟨d, hd, hdk⟩
        exact ih ⟨d, hd, (beq_iff_eq.mp hdk).trans hk⟩
      · exact ⟨a, List.mem_cons_self a _, hk⟩
    · split
      · exact ih ⟨a, ha, hk⟩
      · rcases ih ⟨a, ha, hk⟩ with ⟨b, hb, hbk⟩
        exact ⟨b, List.mem_cons_of_mem c hb, hbk⟩

theorem pairwise_keyNe_drop_duplicates {l : List Candle} :
    (drop_duplicates l).Pairwise keyNe := by
  induction l with
  | nil => simp [drop_duplicates]
  | cons c cs ih =>
    rw [drop_duplicates]
    split
    · exact ih
    · next hany =>
      refine List.Pairwise.cons (fun b hb hEq => ?_) ih
      exact hany (List.any_eq_true.mpr
        ⟨b, mem_of_mem_drop_duplicates hb, beq_iff_eq.mpr hEq.symm⟩)

theorem drop_duplicates_eq_self {l : List Candle} (h : l.Pairwise keyNe) :
    drop_duplicates l = l := by
  induction l with
  | nil => rfl
  | cons c cs ih =>
    rcases List.pairwise_cons.mp h with ⟨hc, hcs⟩
    have hany : ¬ (cs.any (fun d => d.open_time == c.open_time) = true) := by
      simp only [List.any_eq_true, beq_iff_eq]
      rintro ⟨d, hd, hdk⟩
      exact hc d hd hdk.symm
    rw [drop_duplicates, if_neg hany, ih hcs]

theorem drop_duplicates_append {base new : List Candle}
    (hb : base.Pairwise keyNe) (hn : new.Pairwise keyNe) :
    drop_duplicates (base ++ new) =
      base.filter (fun c => !(new.any (fun d => d.open_time == c.open_time))) ++ new := by
  induction base with
  | nil => simpa using drop_duplicates_eq_self hn
  | cons c cs ih =>
    rcases List.pairwise_cons.mp hb with ⟨hc, hcs⟩
    rw [List.cons_append, drop_duplicates]
    by_cases hmem : (new.any (fun d => d.open_time == c.open_time)) = true
    · have hall : ((cs ++ new).any (fun d => d.open_time == c.open_time)) = true := by
        rcases List.any_eq_true.mp hmem with ⟨d, hd, hdk⟩
        exact List.any_eq_true.mpr ⟨d, List.mem_append_right cs hd, hdk⟩
      rw [if_pos hall, ih hcs, List.filter_cons_of_neg (by simp [hmem])]
    · have hall : ¬ ((cs ++ new).any (fun d => d.open_time == c.open_time) = true) := by
        simp only [List.any_eq_true, beq_iff_eq, List.mem_append]
        rintro ⟨d, hd | hd, hdk⟩
        · exact hc d hd hdk.symm
        · exact hmem (List.any_eq_true.mpr ⟨d, hd, beq_iff_eq.mpr hdk⟩)
      rw [if_neg hall, ih hcs, List.filter_cons_of_pos (by simp [hmem]), List.cons_append]

theorem sort_values_perm (l : List Candle) : (sort_values l).Perm l :=
  List.perm_insertionSort keyLE l

theorem sorted_sort_values (l : List Candle) : List.Sorted keyLE (sort_values l) :=
  List.sorted_insertionSort keyLE l

theorem mergeRecords_eq (base new : List Candle) :
    mergeRecords base new = sort_values (drop_duplicates (base ++ new)) := by
  cases base <;> rfl

theorem pairwise_keyLt_mergeRecords (base new : List Candle) :
    (mergeRecords base new).Pairwise keyLt := by
  rw [mergeRecords_eq]
  have hperm := sort_values_perm (drop_duplicates (base ++ new))
  have hne : (sort_values (drop_duplicates (base ++ new))).Pairwise keyNe :=
    (hperm.pairwise_iff (fun hxy => Ne.symm hxy)).mpr pairwise_keyNe_drop_duplicates
  have hle : (sort_values (drop_duplicates (base ++ new))).Pairwise keyLE :=
    sorted_sort_values _
  exact (hle.and hne).imp (fun h => lt_of_le_of_ne h.1 h.2)

theorem mem_mergeRecords {a : Candle} (base new : List Candle) :
    a ∈ mergeRecords base new ↔ a ∈ drop_duplicates (base ++ new) := by
  rw [mergeRecords_eq]
  exact (sort_values_perm _).mem_iff

theorem eq_of_pairwise_keyLt_of_mem_iff :
    ∀ {l₁ l₂ : List Candle}, l₁.Pairwise keyLt → l₂.Pairwise keyLt →
      (∀ a, a ∈ l₁ ↔ a ∈ l₂) → l₁ = l₂ := by
  intro l₁
  induction l₁ with
  | nil =>
    intro l₂ _ _ hm
    cases l₂ with
    | nil => rfl
    | cons b t => exact absurd ((hm b).mpr (List.mem_cons_self b t)) (List.not_mem_nil b)
  | cons a t ih =>
    intro l₂ h₁ h₂ hm
    cases l₂ with
    | nil => exact absurd ((hm a).mp (List.mem_cons_self a t)) (List.not_mem_nil a)
    | cons b t₂ =>
      have hab : a = b := by
        rcases List.mem_cons.mp ((hm a).mp (List.mem_cons_self a t)) with h | h
        · exact h
        · rcases List.mem_cons.mp ((hm b).mpr (List.mem_cons_self b t₂)) with h' | h'
          · exact h'.symm
          · have hba : b.open_time < a.open_time := (List.pairwise_cons.mp h₂).1 a h
            have hab' : a.open_time < b.open_time := (List.pairwise_cons.mp h₁).1 b h'
            exact absurd (lt_trans hab' hba) (lt_irrefl _)
      subst hab
      have ht : ∀ x, x ∈ t ↔ x ∈ t₂ := by
        intro x
        constructor
        · intro hx
          rcases List.mem_cons.mp ((hm x).mp (List.mem_cons_of_mem a hx)) with rfl | hx₂
          · exact absurd ((List.pairwise_cons.mp h₁).1 x hx) (lt_irrefl _)
          · exact hx₂
        · intro hx
          rcases List.mem_cons.mp ((hm x).mpr (List.mem_cons_of_mem a hx)) with rfl | hx₁
          · exact absurd ((List.pairwise_cons.mp h₂).1 x hx) (lt_irrefl _)
          · exact hx₁
      rw [ih (List.pairwise_cons.mp h₁).2 (List.pairwise_cons.mp h₂).2 ht]

theorem eq_of_mem_of_same_key {l : List Candle} (h : l.Pairwise keyNe)
    {a b : Candle} (ha : a ∈ l) (hb : b ∈ l) (hk : a.open_time = b.open_time) :
    a = b := by
  induction l with
  | nil => exact absurd ha (List.not_mem_nil a)
  | cons c cs ih =>
    rcases List.pairwise_cons.mp h with ⟨hc, hcs⟩
    rcases List.mem_cons.mp ha with rfl | ha <;> rcases List.mem_cons.mp hb with h' | hb
    · exact h' ▸ rfl
    · exact absurd hk (hc b hb)
    · exact absurd hk (h' ▸ fun hk => hc a ha hk.symm)
    · exact ih hcs ha hb

theorem nodup_map_key {l : List Candle} (h : l.Pairwise keyNe) :
    (l.map Candle.open_time).Nodup :=
  List.pairwise_map.mpr h

theorem length_eq_card_key_finset {l : List Candle} (h : l.Pairwise keyNe) :
    l.length = (key_finset l).card := by
  rw [key_finset, List.toFinset_card_of_nodup (nodup_map_key h), List.length_map]

theorem key_finset_filter_any (l other : List Candle) :
    key_finset (l.filter (fun c => other.any (fun d => d.open_time == c.open_time)))
      = key_finset l ∩ key_finset other := by
  ext k
  simp only [key_finset, List.mem_toFinset, List.mem_map, List.mem_filter,
    List.any_eq_true, beq_iff_eq, Finset.mem_inter]
  constructor
  · rintro ⟨c, ⟨hcl, d, hd, hdk⟩, rfl⟩
    exact ⟨⟨c, hcl, rfl⟩, ⟨d, hd, hdk⟩⟩
  · rintro ⟨⟨c, hcl, rfl⟩, ⟨d, hd, hdk⟩⟩
    exact ⟨c, ⟨hcl, d, hd, hdk⟩, rfl⟩

theorem length_filter_shared {base new : List Candle}
    (hb : base.Pairwise keyNe) (hn : new.Pairwise keyNe) :
    (base.filter (fun c => new.any (fun d => d.open_time == c.open_time))).length =
      (new.filter (fun d => base.any (fun c => c.open_time == d.open_time))).length := by
  have h₁ : (base.filter (fun c => new.any (fun d => d.open_time == c.open_time))).Pairwise keyNe :=
    List.Pairwise.sublist (List.filter_sublist base) hb
  have h₂ : (new.filter (fun d => base.any (fun c => c.open_time == d.open_time))).Pairwise keyNe :=
    List.Pairwise.sublist (List.filter_sublist new) hn
  rw [length_eq_card_key_finset h₁, length_eq_card_key_finset h₂,
    key_finset_filter_any, key_finset_filter_any, Finset.inter_comm]

theorem length_filter_split_key (base new : List Candle) :
    base.length =
      (base.filter (fun c => new.any (fun d => d.open_time == c.open_time))).length +
      (base.filter (fun c => !(new.any (fun d => d.open_time == c.open_time)))).length := by
  induction base with
  | nil => rfl
  | cons c cs ih =>
    by_cases h : (new.any (fun d => d.open_time == c.open_time)) = true <;>
      simp [List.filter_cons, h, ih] <;> omega

theorem length_mergeRecords {base new : List Candle}
    (hb : base.Pairwise keyNe) (hn : new.Pairwise keyNe) :
    (mergeRecords base new).length =
      base.length + new.length
        - (new.filter (fun d => base.any (fun c => c.open_time == d.open_time))).length := by
  rw [mergeRecords_eq]
  have hlen : (sort_values (drop_duplicates (base ++ new))).length
      = (drop_duplicates (base ++ new)).length :=
    (sort_values_perm _).length_eq
  rw [hlen, drop_duplicates_append hb hn, List.length_append]
  have hsplit := length_filter_split_key base new
  have hshared := length_filter_shared hb hn
  omega

theorem except_map_eq_ok {ε α β : Type} {f : α → β} {x : Except ε α} {b : β}
    (h : x.map f = Except.ok b) : ∃ a, x = Except.ok a ∧ f a = b := by
  cases x with
  | ok a => exact ⟨a, rfl, by simpa [Except.map] using h⟩
  | error e => simp [Except.map] at h

theorem mergeRecords_subset_eq {F new : List Candle}
    (hF : F.Pairwise keyLt) (hsub : ∀ r ∈ new, r ∈ F) :
    mergeRecords F new = F := by
  have hFne : F.Pairwise keyNe := hF.imp (fun h => ne_of_lt h)
  apply eq_of_pairwise_keyLt_of_mem_iff (pairwise_keyLt_mergeRecords F new) hF
  intro a
  rw [mem_mergeRecords]
  constructor
  · intro ha
    rcases List.mem_append.mp (mem_of_mem_drop_duplicates ha) with h | h
    · exact h
    · exact hsub a h
  · intro ha
    rcases key_mem_drop_duplicates (k := a.open_time)
        ⟨a, List.mem_append_left new ha, rfl⟩ with ⟨b, hb, hbk⟩
    have hbF : b ∈ F := by
      rcases List.mem_append.mp (mem_of_mem_drop_duplicates hb) with h | h
      · exact h
      · exact hsub b h
    have hab : a = b := eq_of_mem_of_same_key hFne ha hbF hbk.symm
    rw [hab]
    exact hb

theorem startsWithChars_self : ∀ n : List Char, startsWithChars n n = true
  | [] => rfl
  | a :: n => by simp [startsWithChars, startsWithChars_self n]

theorem substringOf_append_self (pre n : List Char) :
    substringOf n (pre ++ n) = true := by
  induction pre with
  | nil =>
    cases n with
    | nil => rfl
    | cons b t => simp [substringOf, startsWithChars_self]
  | cons p pre ih => simp [substringOf, ih]

theorem string_toList_append (s t : String) :
    (s ++ t).toList = s.toList ++ t.toList :=
  String.data_append s t

theorem base_records_some (l : List Candle) : base_records (some l) = l := by
  cases l <;> rfl

/-- C1: the spec says the fetch window of `update_klines_csv` starts at
T + D for an existing series with maximum `open_time` T and interval
duration D, never at T or earlier.  The code (fetch_data.py lines
148-151) passes the stored maximum `open_time` itself as the fetch start,
without adding an interval step, so for an existing file whose last
candle opens at T = 1704067200000 with interval 1h (D = 3600000) the
window starts at T — strictly earlier than T + D — and the stored last
candle is refetched, contradicting the code's own comment that the start
is the next candle after the last one. -/
theorem C1_resume_start_refetches_last_candle :
    resume_start (some [sampleCandle 1704067200000]) 0 = 1704067200000
      ∧ (1704067200000 : Int) < 1704067200000 + 3600000 := by
  decide

/-- C4: time normalization — the strings "2024-01-01 00:00:00" and
"2024-01-01T00:00:00", epoch seconds 1704067200 and epoch milliseconds
1704067200000 all normalize to the canonical value 1704067200000; in
general an integer numeric input strictly below 10,000,000,000 is
multiplied by 1000 as seconds, and one at or above the threshold is
returned unchanged as milliseconds (truncation toward integer, carried by
`truncScaled` inside `to_millis`, is the identity on integers). -/
theorem C4_time_normalization :
    to_millis (TimeInput.str "2024-01-01 00:00:00") = some 1704067200000
  ∧ to_millis (TimeInput.str "2024-01-01T00:00:00") = some 1704067200000
  ∧ to_millis (TimeInput.num 1704067200) = some 1704067200000
  ∧ to_millis (TimeInput.num 1704067200000) = some 1704067200000
  ∧ (∀ n : Int, (n : ℚ) < 10000000000 →
      to_millis (TimeInput.num (n : ℚ)) = some (n * 1000))
  ∧ (∀ n : Int, 10000000000 ≤ (n : ℚ) →
      to_millis (TimeInput.num (n : ℚ)) = some n) := by
  refine ⟨by decide, by decide, by decide, by decide, ?_, ?_⟩
  · intro n hlt
    simp only [to_millis, if_pos hlt, truncScaled, Rat.num_intCast, Rat.den_intCast,
      Nat.div_one, Option.some.injEq]
    split <;> omega
  · intro n hge
    simp only [to_millis, if_neg (not_lt.mpr hge), truncScaled, Rat.num_intCast,
      Rat.den_intCast, Nat.div_one, Option.some.injEq]
    split <;> omega

theorem C4_time_normalization_witness :
    ((3 : Int) : ℚ) < 10000000000
  ∧ (10000000000 : ℚ) ≤ ((10000000000 : Int) : ℚ)
  ∧ to_millis (TimeInput.num ((3 : Int) : ℚ)) = some (3 * 1000)
  ∧ to_millis (TimeInput.num ((10000000000 : Int) : ℚ)) = some 10000000000 :=
  ⟨by decide, by decide,
   C4_time_normalization.2.2.2.2.1 3 (by decide),
   C4_time_normalization.2.2.2.2.2 10000000000 (by decide)⟩

/-- C5: interval resolution — "1m" is 60000 ms, "1h" is 3600000 ms, "1d"
is 86400000 ms, "1w" is 604800000 ms, and "1M" fails with an
`UnsupportedInterval` error rather than any approximate duration. -/
theorem C5_interval_resolution :
    interval_to_millis "1m" = Except.ok 60000
  ∧ interval_to_millis "1h" = Except.ok 3600000
  ∧ interval_to_millis "1d" = Except.ok 86400000
  ∧ interval_to_millis "1w" = Except.ok 604800000
  ∧ interval_to_millis "1M" = Except.error ⟨"1M"⟩ := by
  decide

/-- C2: merge correctness — for an existing set and a newly fetched set
each with pairwise-distinct `open_time`s, the merge of `update_klines_csv`
has exactly N + M − K rows where K counts the newly fetched rows sharing
an `open_time` with existing ones, is strictly ascending in `open_time`,
keeps every newly fetched record, and any merged record whose `open_time`
occurs in the newly fetched set is a newly fetched record (the existing
one having been dropped). -/
theorem C2_merge_correctness (base new : List Candle)
    (hb : base.Pairwise keyNe) (hn : new.Pairwise keyNe) :
    (mergeRecords base new).length =
        base.length + new.length
          - (new.filter (fun d => base.any (fun c => c.open_time == d.open_time))).length
      ∧ (mergeRecords base new).Pairwise keyLt
      ∧ (∀ d ∈ new, d ∈ mergeRecords base new)
      ∧ (∀ r ∈ mergeRecords base new,
          (∃ d ∈ new, d.open_time = r.open_time) → r ∈ new) := by
  refine ⟨length_mergeRecords hb hn, pairwise_keyLt_mergeRecords base new, ?_, ?_⟩
  · intro d hd
    rw [mem_mergeRecords, drop_duplicates_append hb hn]
    exact List.mem_append_right _ hd
  · intro r hr hshared
    obtain ⟨d, hd, hdk⟩ := hshared
    rw [mem_mergeRecords, drop_duplicates_append hb hn] at hr
    rcases List.mem_append.mp hr with h | h
    · exfalso
      rcases List.mem_filter.mp h with ⟨_, hfilt⟩
      have hany : (new.any (fun x => x.open_time == r.open_time)) = true :=
        List.any_eq_true.mpr ⟨d, hd, beq_iff_eq.mpr hdk⟩
      simp [hany] at hfilt
    · exact h

theorem C2_merge_correctness_witness :
    ([sampleCandle 100, sampleCandle 200].Pairwise keyNe)
  ∧ ([sampleCandleB 200, sampleCandleB 300].Pairwise keyNe)
  ∧ ((mergeRecords [sampleCandle 100, sampleCandle 200]
        [sampleCandleB 200, sampleCandleB 300]).length =
          [sampleCandle 100, sampleCandle 200].length
            + [sampleCandleB 200, sampleCandleB 300].length
            - ([sampleCandleB 200, sampleCandleB 300].filter
                (fun d => [sampleCandle 100, sampleCandle 200].any
                  (fun c => c.open_time == d.open_time))).length
      ∧ (mergeRecords [sampleCandle 100, sampleCandle 200]
          [sampleCandleB 200, sampleCandleB 300]).Pairwise keyLt
      ∧ (∀ d ∈ [sampleCandleB 200, sampleCandleB 300],
          d ∈ mergeRecords [sampleCandle 100, sampleCandle 200]
            [sampleCandleB 200, sampleCandleB 300])
      ∧ (∀ r ∈ mergeRecords [sampleCandle 100, sampleCandle 200]
            [sampleCandleB 200, sampleCandleB 300],
          (∃ d ∈ [sampleCandleB 200, sampleCandleB 300], d.open_time = r.open_time) →
            r ∈ [sampleCandleB 200, sampleCandleB 300])) :=
  ⟨by decide, by decide, C2_merge_correctness _ _ (by decide) (by decide)⟩

/-- C3: pagination behaviour of the fetch loop — an empty page stops the
loop with no further requests; a given end time stops it as soon as the
next cursor (last row's `open_time` plus one millisecond) reaches or
exceeds the end; a next cursor that does not advance past the current
cursor stops it; otherwise the cursor becomes last `open_time` + 1 and
the next page is consumed; and an empty page on the first call yields an
empty, correctly-typed result without error. -/
theorem C3_pagination_behavior :
    (∀ (cur : Int) (e : Option Int) rest,
        fetch_loop e cur (Except.ok [] :: rest) = Except.ok [])
  ∧ (∀ (cur end_ms : Int) (chunk : List RawRow) (lastRow : RawRow) rest,
        chunk.getLast? = some lastRow →
        end_ms ≤ lastRow.open_time + 1 →
        fetch_loop (some end_ms) cur (Except.ok chunk :: rest) = Except.ok chunk)
  ∧ (∀ (cur : Int) (e : Option Int) (chunk : List RawRow) (lastRow : RawRow) rest,
        chunk.getLast? = some lastRow →
        stopAtEnd e (lastRow.open_time + 1) = false →
        lastRow.open_time + 1 ≤ cur →
        fetch_loop e cur (Except.ok chunk :: rest) = Except.ok chunk)
  ∧ (∀ (cur : Int) (e : Option Int) (chunk : List RawRow) (lastRow : RawRow) rest,
        chunk.getLast? = some lastRow →
        stopAtEnd e (lastRow.open_time + 1) = false →
        cur < lastRow.open_time + 1 →
        fetch_loop e cur (Except.ok chunk :: rest) =
          (fetch_loop e (lastRow.open_time + 1) rest).map (fun tl => chunk ++ tl))
  ∧ (∀ (start_ms : Int) (e : Option Int) rest,
        fetch_klines start_ms e (Except.ok [] :: rest) = Except.ok []) := by
  refine ⟨?_, ?_, ?_, ?_, ?_⟩
  · intro cur e rest
    simp [fetch_loop]
  · intro cur end_ms chunk lastRow rest hLast hEnd
    rw [fetch_loop, hLast]
    simp only [stopAtEnd, decide_eq_true_eq]
    rw [if_pos hEnd]
  · intro cur e chunk lastRow rest hLast hStop hle
    rw [fetch_loop, hLast]
    simp only [hStop, Bool.false_eq_true, if_false]
    rw [if_pos hle]
  · intro cur e chunk lastRow rest hLast hStop hcur
    rw [fetch_loop, hLast]
    simp only [hStop, Bool.false_eq_true, if_false]
    rw [if_neg (not_le.mpr hcur)]
  · intro start_ms e rest
    simp [fetch_klines, fetch_loop, Except.map, normalizeRows]

theorem C3_pagination_behavior_witness :
    (fetch_loop none 0 (Except.ok [] :: []) = Except.ok [])
  ∧ (fetch_loop (some 101) 0 (Except.ok [sampleRaw 100] :: []) = Except.ok [sampleRaw 100])
  ∧ (fetch_loop none 150 (Except.ok [sampleRaw 100] :: []) = Except.ok [sampleRaw 100])
  ∧ (fetch_loop none 50 (Except.ok [sampleRaw 100] :: [Except.ok []]) =
      (fetch_loop none 101 [Except.ok []]).map (fun tl => [sampleRaw 100] ++ tl))
  ∧ (fetch_klines 0 none (Except.ok [] :: []) = Except.ok []) :=
  ⟨C3_pagination_behavior.1 0 none [],
   C3_pagination_behavior.2.1 0 101 [sampleRaw 100] (sampleRaw 100) []
      (by decide) (by decide),
   C3_pagination_behavior.2.2.1 150 none [sampleRaw 100] (sampleRaw 100) []
      (by decide) (by decide) (by decide),
   C3_pagination_behavior.2.2.2.1 50 none [sampleRaw 100] (sampleRaw 100) [Except.ok []]
      (by decide) (by decide) (by decide),
   C3_pagination_behavior.2.2.2.2 0 none []⟩

/-- C6: persisted-series invariant — after every successful run of
`update_klines_csv` the written record set has `open_time` values
strictly increasing in file order, and hence pairwise unique. -/
theorem C6_persisted_invariant (existing : Option (List Candle))
    (start_time_if_empty : Int) (end_time : Option Int)
    (responses : List (Except TransportError (List RawRow)))
    (merged : List Candle)
    (h : update_klines_csv existing start_time_if_empty end_time responses
          = Except.ok merged) :
    merged.Pairwise keyLt ∧ (merged.map Candle.open_time).Nodup := by
  unfold update_klines_csv at h
  rcases except_map_eq_ok h with ⟨new_df, _, hmerge⟩
  have hlt := pairwise_keyLt_mergeRecords (base_records existing) new_df
  rw [hmerge] at hlt
  exact ⟨hlt, nodup_map_key (hlt.imp fun h => ne_of_lt h)⟩

theorem C6_persisted_invariant_witness :
    update_klines_csv (some [sampleCandle 100]) 0 none [Except.ok [sampleRaw 200]]
        = Except.ok [sampleCandle 100, sampleCandle 200]
  ∧ ([sampleCandle 100, sampleCandle 200].Pairwise keyLt
      ∧ ([sampleCandle 100, sampleCandle 200].map Candle.open_time).Nodup) :=
  ⟨by decide, C6_persisted_invariant (some [sampleCandle 100]) 0 none
      [Except.ok [sampleRaw 200]] [sampleCandle 100, sampleCandle 200] (by decide)⟩

/-- C7: transport-error atomicity — when the remote fetch fails with a
transport- or status-level error, `update_klines_csv` propagates exactly
that error and the previously persisted file state is left unchanged,
the merge and write being reachable only after a fully successful
fetch. -/
theorem C7_transport_error_atomicity (existing : Option (List Candle))
    (start_time_if_empty : Int) (end_time : Option Int)
    (responses : List (Except TransportError (List RawRow)))
    (err : TransportError)
    (h : fetch_klines (resume_start existing start_time_if_empty) end_time responses
          = Except.error err) :
    update_klines_csv existing start_time_if_empty end_time responses = Except.error err
      ∧ fileAfterRun existing start_time_if_empty end_time responses = existing := by
  have hupd : update_klines_csv existing start_time_if_empty end_time responses
      = Except.error err := by
    unfold update_klines_csv
    rw [h]
    rfl
  refine ⟨hupd, ?_⟩
  unfold fileAfterRun
  rw [hupd]

theorem C7_transport_error_atomicity_witness :
    fetch_klines (resume_start (some [sampleCandle 100]) 0) none [Except.error ⟨500⟩]
        = Except.error ⟨500⟩
  ∧ (update_klines_csv (some [sampleCandle 100]) 0 none [Except.error ⟨500⟩]
        = Except.error ⟨500⟩
      ∧ fileAfterRun (some [sampleCandle 100]) 0 none [Except.error ⟨500⟩]
        = some [sampleCandle 100]) :=
  ⟨by decide, C7_transport_error_atomicity (some [sampleCandle 100]) 0 none
      [Except.error ⟨500⟩] ⟨500⟩ (by decide)⟩

/-- C8: idempotence — if a first run persisted the record set F, and a
second run's fetch succeeds returning only records already present in F
(or nothing), then the second run persists exactly F again. -/
theorem C8_idempotence
    (existing : Option (List Candle)) (start_time_if_empty : Int) (end_time : Option Int)
    (responses₁ responses₂ : List (Except TransportError (List RawRow)))
    (F : List Candle) (raw₂ : List RawRow)
    (h₁ : update_klines_csv existing start_time_if_empty end_time responses₁
            = Except.ok F)
    (h₂ : fetch_loop end_time (resume_start (some F) start_time_if_empty) responses₂
            = Except.ok raw₂)
    (hsub : ∀ r ∈ normalizeRows raw₂, r ∈ F) :
    update_klines_csv (some F) start_time_if_empty end_time responses₂ = Except.ok F
      ∧ fileAfterRun (some F) start_time_if_empty end_time responses₂ = some F := by
  have hF : F.Pairwise keyLt := by
    unfold update_klines_csv at h₁
    rcases except_map_eq_ok h₁ with ⟨nd, _, hm⟩
    have := pairwise_keyLt_mergeRecords (base_records existing) nd
    rwa [hm] at this
  have hupd : update_klines_csv (some F) start_time_if_empty end_time responses₂
      = Except.ok F := by
    unfold update_klines_csv fetch_klines
    rw [h₂]
    show Except.ok (mergeRecords (base_records (some F)) (normalizeRows raw₂))
      = Except.ok F
    rw [base_records_some, mergeRecords_subset_eq hF hsub]
  refine ⟨hupd, ?_⟩
  unfold fileAfterRun
  rw [hupd]

theorem C8_idempotence_witness :
    update_klines_csv none 100 none [Except.ok [sampleRaw 100]]
        = Except.ok [sampleCandle 100]
  ∧ fetch_loop none (resume_start (some [sampleCandle 100]) 100) [Except.ok [sampleRaw 100]]
        = Except.ok [sampleRaw 100]
  ∧ (∀ r ∈ normalizeRows [sampleRaw 100], r ∈ [sampleCandle 100])
  ∧ (update_klines_csv (some [sampleCandle 100]) 100 none [Except.ok [sampleRaw 100]]
        = Except.ok [sampleCandle 100]
      ∧ fileAfterRun (some [sampleCandle 100]) 100 none [Except.ok [sampleRaw 100]]
        = some [sampleCandle 100]) :=
  ⟨by decide, by decide, by decide,
   C8_idempotence none 100 none [Except.ok [sampleRaw 100]] [Except.ok [sampleRaw 100]]
     [sampleCandle 100] [sampleRaw 100] (by decide) (by decide) (by decide)⟩

/-- C9 counterexample: a successful run of the command surface whose
merge adds 2 net-new rows to a 1-row file prints the line
"Saved/updated: o.csv | rows=3", which does not contain the added-row
count 2 anywhere — so the printed summary does not contain the count of
newly added rows, contrary to the claim. -/
theorem C9_summary_lacks_added_count :
    update_data (some [sampleCandle 100]) 0
        [Except.ok [sampleRaw 200, sampleRaw 300]] "o.csv"
      = Except.ok ([sampleCandle 100, sampleCandle 200, sampleCandle 300],
          "Saved/updated: o.csv | rows=3")
  ∧ ([sampleCandle 100, sampleCandle 200, sampleCandle 300].length
        - (base_records (some [sampleCandle 100])).length = 2)
  ∧ substringOf (toString (2 : Nat)).toList
      "Saved/updated: o.csv | rows=3".toList = false := by
  decide

/-- C9 amended: every successful run of the command surface prints a
one-line summary consisting of the output path and the total row count of
the merged series; the total count appears in the line, but the count of
newly added rows is not part of the printed format. -/
theorem C9_amended_summary_total_only
    (existing : Option (List Candle)) (start_if_empty : Int)
    (responses : List (Except TransportError (List RawRow)))
    (out_path : String) (df : List Candle) (line : String)
    (h : update_data existing start_if_empty responses out_path
          = Except.ok (df, line)) :
    line = "Saved/updated: " ++ out_path ++ " | rows=" ++ toString df.length
      ∧ substringOf (toString df.length).toList line.toList = true := by
  unfold update_data at h
  rcases except_map_eq_ok h with ⟨df', _, hpair⟩
  obtain ⟨rfl, rfl⟩ : df' = df ∧ summary_line out_path df' = line := by
    exact ⟨congrArg Prod.fst hpair, congrArg Prod.snd hpair⟩
  refine ⟨rfl, ?_⟩
  rw [summary_line, string_toList_append]
  exact substringOf_append_self _ _

theorem C9_amended_summary_total_only_witness :
    update_data (some [sampleCandle 100]) 0 [Except.ok []] "o.csv"
        = Except.ok ([sampleCandle 100], "Saved/updated: o.csv | rows=1")
  ∧ ("Saved/updated: o.csv | rows=1"
        = "Saved/updated: " ++ "o.csv" ++ " | rows=" ++ toString ([sampleCandle 100].length)
      ∧ substringOf (toString ([sampleCandle 100].length)).toList
          "Saved/updated: o.csv | rows=1".toList = true) :=
  ⟨by decide, C9_amended_summary_total_only (some [sampleCandle 100]) 0 [Except.ok []]
      "o.csv" [sampleCandle 100] "Saved/updated: o.csv | rows=1" (by decide)⟩

/-- C10: no-data-loss invariant — after every successful run of
`update_klines_csv` over an existing file, every `open_time` present in
the file before the run is still present in the persisted result: the
merge can replace the record at a time point with a freshly fetched one
but never removes a time point. -/
theorem C10_no_data_loss (l : List Candle)
    (start_time_if_empty : Int) (end_time : Option Int)
    (responses : List (Except TransportError (List RawRow)))
    (merged : List Candle)
    (h : update_klines_csv (some l) start_time_if_empty end_time responses
          = Except.ok merged) :
    ∀ c ∈ l, ∃ r ∈ merged, r.open_time = c.open_time := by
  unfold update_klines_csv at h
  rcases except_map_eq_ok h with ⟨new_df, _, hmerge⟩
  intro c hc
  rw [← hmerge, base_records_some]
  rcases key_mem_drop_duplicates (k := c.open_time)
      ⟨c, List.mem_append_left new_df hc, rfl⟩ with ⟨b, hb, hbk⟩
  exact ⟨b, (mem_mergeRecords _ _).mpr hb, hbk⟩

theorem C10_no_data_loss_witness :
    update_klines_csv (some [sampleCandle 100]) 0 none [Except.ok [sampleRaw 200]]
        = Except.ok [sampleCandle 100, sampleCandle 200]
  ∧ (sampleCandle 100) ∈ [sampleCandle 100]
  ∧ ∃ r ∈ [sampleCandle 100, sampleCandle 200],
      r.open_time = (sampleCandle 100).open_time :=
  ⟨by decide, by decide,
   C10_no_data_loss [sampleCandle 100] 0 none [Except.ok [sampleRaw 200]]
     [sampleCandle 100, sampleCandle 200] (by decide) (sampleCandle 100) (by decide)⟩

end CryptoAnalytics
